import Mathlib

/-!
# Verification of the unipulse-backend content pipeline

A shallow embedding of the feedup content-ingestion and staging-to-production
pipeline (`src/feedup`), covering:

* the research-paper deduplication and quality gate of
  `feedup/ingestion/research_fetchers.py`
  (`EnhancedGoogleScholarFetcher._smart_deduplication`, `_is_quality_paper`,
  `_apply_quality_filters`);
* the per-source fetchers of `feedup/ingestion/devto.py` and the fallback
  behaviour of `research_fetchers.py` / `ingestion/service.py`;
* the staging upsert of `feedup/utils.py` (`ingest_articles`);
* the admin actions of `feedup/admin.py` (`mark_approved`, `mark_unapproved`,
  `mark_processed`, `mark_unprocessed`, `clear_summary`, `save_model`) and
  the summarization of `feedup/utils.py` (`summarize_articles`);
* the staging-to-production promotion command
  `feedup/management/commands/process_articles.py` (`Command.handle`).

Database rows are modelled as Lean structures, tables as lists, and each
operation as a pure state transformer.  External effects (the network, the
LLM) are passed in as explicit oracle arguments.  Python `None`-able string
fields are modelled as `String` with `""` for the empty/null case, matching
the truthiness tests (`if not article.summary:`) in the source.
-/

/-! ## Papers and the deduplication / quality filter

`research_fetchers.py` passes papers around as dicts.  The fields consumed by
`_smart_deduplication`, `_is_quality_paper` and `_apply_quality_filters` are
`unique_hash` (absent keys give `None`, hence `Option String`), `title`,
`summary`, `publication_date` and `category`. -/

structure Paper where
  title : String
  summary : String
  unique_hash : Option String
  /-- Source `publication_date`, as a day number (`datetime.date` totally ordered). -/
  publication_date : Int
  category : String
deriving DecidableEq

/-- Python `str.lower()` (ASCII case folding, character by character). -/
def pyLower (s : String) : String :=
  String.mk (s.toList.map Char.toLower)

/-- Word accumulator for Python `str.split()` with no argument: split on
whitespace runs, dropping empty fragments. -/
def wordsAux : List Char → List Char → List String
  | [], acc => if acc.isEmpty then [] else [String.mk acc.reverse]
  | c :: cs, acc =>
    if c.isWhitespace then
      if acc.isEmpty then wordsAux cs [] else String.mk acc.reverse :: wordsAux cs []
    else wordsAux cs (c :: acc)

/-- Python `str.split()` with no argument. -/
def pySplitWs (s : String) : List String :=
  wordsAux s.toList []

/-- Python `sep.join(parts)`. -/
def pyJoin (sep : String) : List String → String
  | [] => ""
  | [x] => x
  | x :: y :: xs => x ++ sep ++ pyJoin sep (y :: xs)

/-- A character kept by `re.sub(r'[^\w\s]', '', ·)`: a word character
(`\w`, modelled as ASCII alphanumeric or underscore) or whitespace. -/
def wordOrSpace (c : Char) : Bool :=
  c.isAlphanum || c = '_' || c.isWhitespace

/-- The title normalization used by `_smart_deduplication` (and by
`_generate_robust_hash`): lower-case, strip `[^\w\s]`, collapse whitespace
(`' '.join(title.split())`). -/
def normalizedTitle (t : String) : String :=
  pyJoin " " (pySplitWs (String.mk ((pyLower t).toList.filter wordOrSpace)))

/-- Naive substring test on the character lists, modelling Python's
`pat in s`. -/
def strContains (s pat : String) : Bool :=
  s.toList.tails.any (fun suf => pat.toList.isPrefixOf suf)

/-- The spam tokens of `_is_quality_paper`. -/
def spam_indicators : List String :=
  ["buy", "cheap", "free download", "click here"]

/-- Source `EnhancedGoogleScholarFetcher._is_quality_paper`: title at least 15
characters, summary at least 30 characters, and no spam token occurs in
`f"{title} {summary}".lower()`. -/
def is_quality_paper (p : Paper) : Bool :=
  if p.title.length < 15 then false
  else if p.summary.length < 30 then false
  else if spam_indicators.any
      (fun ind => strContains (pyLower (p.title ++ " " ++ p.summary)) ind) then false
  else true

/-- The recursion inside `_smart_deduplication`: walk the batch carrying the
`seen_hashes` and `seen_titles` sets (modelled as lists); a paper whose
`unique_hash` is in `seen_hashes`, or whose normalized title is in
`seen_titles`, is dropped, and only a *kept* paper's hash and title are added
to the seen sets. -/
def dedupGo : List Paper → List (Option String) → List String → List Paper
  | [], _, _ => []
  | p :: ps, seenHashes, seenTitles =>
    if p.unique_hash ∈ seenHashes then
      dedupGo ps seenHashes seenTitles
    else if normalizedTitle p.title ∈ seenTitles then
      dedupGo ps seenHashes seenTitles
    else
      p :: dedupGo ps (p.unique_hash :: seenHashes) (normalizedTitle p.title :: seenTitles)

/-- Source `EnhancedGoogleScholarFetcher._smart_deduplication`. -/
def smart_deduplication (papers : List Paper) : List Paper :=
  dedupGo papers [] []

/-- The seen sets after `dedupGo` has walked a batch (used to reason about
processing a concatenation of batches). -/
def dedupSeen : List Paper → List (Option String) → List String →
    List (Option String) × List String
  | [], seenHashes, seenTitles => (seenHashes, seenTitles)
  | p :: ps, seenHashes, seenTitles =>
    if p.unique_hash ∈ seenHashes then
      dedupSeen ps seenHashes seenTitles
    else if normalizedTitle p.title ∈ seenTitles then
      dedupSeen ps seenHashes seenTitles
    else
      dedupSeen ps (p.unique_hash :: seenHashes) (normalizedTitle p.title :: seenTitles)

/-- The sort key of `_apply_quality_filters`: `(publication_date,
category_bonus)` with a bonus for categories other than `'Computer Science'`
(the `0.1` bonus is modelled as `1` against `0`). -/
def paperSortKey (p : Paper) : Int × Int :=
  (p.publication_date, if p.category ≠ "Computer Science" then 1 else 0)

/-- Strict lexicographic comparison of sort keys. -/
def paperKeyGt (p q : Paper) : Bool :=
  (paperSortKey p).1 > (paperSortKey q).1 ||
    ((paperSortKey p).1 = (paperSortKey q).1 ∧ (paperSortKey p).2 > (paperSortKey q).2)

/-- Stable descending insertion, modelling Python's stable
`list.sort(key=sort_key, reverse=True)`: an element moves below only
strictly greater keys, so equal keys keep their input order. -/
def insertDesc (p : Paper) : List Paper → List Paper
  | [] => [p]
  | q :: qs => if paperKeyGt q p then q :: insertDesc p qs else p :: q :: qs

/-- Stable sort by `paperSortKey`, descending. -/
def sortPapersDesc (l : List Paper) : List Paper :=
  l.foldr insertDesc []

/-- Source `EnhancedGoogleScholarFetcher._apply_quality_filters`: keep the quality
papers and sort them newest-first. -/
def apply_quality_filters (papers : List Paper) : List Paper :=
  sortPapersDesc (papers.filter is_quality_paper)


/-! ## The staging and production stores

`feedup/models.py` is not part of the sources; the row shapes and their
creation defaults are modelled from the spec's data model (§3):
`StagingRecord` owns `{title, source_url, source_name, raw_content,
tag_suggestions, summary, ai_generated, approved, processed, published_at}`
plus a primary key, and "on creation, all mutable annotation fields
(summary, approved, processed, ai_generated) start at their empty/false
defaults".  Nullable text fields are `String` with `""` for null.  The
`prompts` JSON field (a one-element list of strings in the code) is
modelled as the single string it carries. -/

structure StagingRecord where
  id : Nat
  title : String
  source_url : String
  source_name : String
  raw_content : String
  tag_suggestions : List String
  summary : String
  prompts : String
  ai_generated : Bool
  approved : Bool
  processed : Bool
  published_at : Int
deriving DecidableEq

/-- A production `Article` row, with the fields copied by
`process_articles.py` plus the back-reference to the staging row. -/
structure Article where
  title : String
  source_url : String
  source_name : String
  summary : String
  prompts : String
  published_at : Int
  staging_article : Nat
deriving DecidableEq

/-- The database state: the staging and production tables, plus the next
primary key handed out on staging inserts. -/
structure DB where
  staging : List StagingRecord
  articles : List Article
  next_id : Nat
deriving DecidableEq

/-! ## The promotion command (`process_articles.py`, `Command.handle`)

The command selects `approved=True, processed=False` staging rows, then
handles each inside its own `transaction.atomic()` block: an exception while
handling one candidate rolls its changes back and the loop continues.  The
possibility of an exception is passed in as a fault oracle `fails` on the
candidate's primary key; a faulting candidate leaves the database unchanged
and contributes nothing to the success count. -/

/-- The `Article.objects.create(...)` call of `process_articles.py`, copying
the staged fields. -/
def mkArticle (staged : StagingRecord) : Article :=
  { title := staged.title
    source_url := staged.source_url
    source_name := staged.source_name
    summary := staged.summary
    prompts := staged.prompts
    published_at := staged.published_at
    staging_article := staged.id }

/-- Source `staged_article.processed = True; staged_article.save()`: persist the
processed flag for the row with the given primary key. -/
def setProcessedById (i : Nat) (l : List StagingRecord) : List StagingRecord :=
  l.map (fun r => if r.id == i then { r with processed := true } else r)

/-- One iteration of the loop in `Command.handle`, for the snapshot
`staged` taken by the initial queryset. -/
def promoteStep (fails : Nat → Bool) (acc : DB × Nat) (staged : StagingRecord) : DB × Nat :=
  let db := acc.1
  if fails staged.id then
    acc
  else if db.articles.any (fun a => a.source_url == staged.source_url) then
    ({ db with staging := setProcessedById staged.id db.staging }, acc.2)
  else
    ({ db with
        staging := setProcessedById staged.id db.staging
        articles := db.articles ++ [mkArticle staged] }, acc.2 + 1)

/-- The queryset `ArticleStaging.objects.filter(approved=True, processed=False)`. -/
def promotionCandidates (db : DB) : List StagingRecord :=
  db.staging.filter (fun r => r.approved && !r.processed)

/-- Source `Command.handle` of `process_articles.py`: returns the final database
and the reported `success_count`. -/
def process_articles_handle (fails : Nat → Bool) (db : DB) : DB × Nat :=
  (promotionCandidates db).foldl (promoteStep fails) (db, 0)

/-! ## Ingestion into staging (`feedup/utils.py`, `ingest_articles`) -/

/-- The dict shape produced by the devto/medium ingestors and consumed by
`ingest_articles`. -/
structure FetchedItem where
  title : String
  source_url : String
  source_name : String
  raw_content : String
  tag_suggestions : List String
  published_at : Int
  department_name : String
deriving DecidableEq

/-- A freshly created staging row.  Modelled from the spec: `feedup/models.py`
is missing from the sources, so the creation defaults of the fields not in
the `get_or_create` defaults dict follow §3/§4.3 of the spec ("all mutable
annotation fields (summary, approved, processed, ai_generated) start at
their empty/false defaults"). -/
def newStagingRecord (i : Nat) (it : FetchedItem) : StagingRecord :=
  { id := i
    title := it.title
    source_url := it.source_url
    source_name := it.source_name
    raw_content := it.raw_content
    tag_suggestions := it.tag_suggestions
    summary := ""
    prompts := ""
    ai_generated := false
    approved := false
    processed := false
    published_at := it.published_at }

/-- Source `ArticleStaging.objects.get_or_create(source_url=..., defaults={...})`:
look up by `source_url`; an existing row is returned unchanged with
`created=False`, otherwise a new row is inserted. -/
def get_or_create (db : DB) (it : FetchedItem) : DB × StagingRecord × Bool :=
  match db.staging.find? (fun r => r.source_url == it.source_url) with
  | some r => (db, r, false)
  | none =>
    let r := newStagingRecord db.next_id it
    ({ db with staging := db.staging ++ [r], next_id := db.next_id + 1 }, r, true)

/-- One iteration of the loop in `ingest_articles`: upsert the item and
bump `saved_count` when a row was created. -/
def ingestStep (acc : DB × Nat) (it : FetchedItem) : DB × Nat :=
  let res := get_or_create acc.1 it
  (res.1, acc.2 + if res.2.2 then 1 else 0)

/-- Source `ingest_articles` of `feedup/utils.py` restricted to its database part:
upsert every fetched item in order and count the created rows
(`saved_count`). -/
def ingest_articles (items : List FetchedItem) (db : DB) : DB × Nat :=
  items.foldl ingestStep (db, 0)

/-! ## Admin actions on staging (`feedup/admin.py`, `ArticleStagingAdmin`)

Each bulk action receives a queryset, modelled by the list of selected
primary keys; `queryset.update(...)` and the per-row `save()` calls become
row-wise maps over the staging table. -/

/-- Source `mark_approved`: `queryset.update(approved=True)`. -/
def mark_approved (ids : List Nat) (db : DB) : DB :=
  { db with staging :=
      db.staging.map (fun r => if ids.contains r.id then { r with approved := true } else r) }

/-- Source `mark_unapproved`: `queryset.update(approved=False)`. -/
def mark_unapproved (ids : List Nat) (db : DB) : DB :=
  { db with staging :=
      db.staging.map (fun r => if ids.contains r.id then { r with approved := false } else r) }

/-- The per-row effect of the `mark_processed` loop: a selected row with a
summary is saved with `processed=True`; a selected row without a summary is
skipped (`continue`), i.e. left exactly as it was. -/
def markProcessedRow (ids : List Nat) (r : StagingRecord) : StagingRecord :=
  if ids.contains r.id && !(r.summary == "") then { r with processed := true } else r

/-- Source `mark_processed`: returns the new state together with the
`success_count` and `failed_count` the action reports. -/
def mark_processed (ids : List Nat) (db : DB) : DB × Nat × Nat :=
  ({ db with staging := db.staging.map (markProcessedRow ids) },
   (db.staging.filter (fun r => ids.contains r.id && !(r.summary == ""))).length,
   (db.staging.filter (fun r => ids.contains r.id && r.summary == "")).length)

/-- Source `mark_unprocessed`: `queryset.update(processed=False)`. -/
def mark_unprocessed (ids : List Nat) (db : DB) : DB :=
  { db with staging :=
      db.staging.map (fun r => if ids.contains r.id then { r with processed := false } else r) }

/-- Source `clear_summary`: `queryset.update(summary="", prompts="")`. -/
def clear_summary (ids : List Nat) (db : DB) : DB :=
  { db with staging :=
      db.staging.map fun r =>
                if ids.contains r.id then { r with summary := "", prompts := "" } else r }

/-- Source `ArticleStagingAdmin.save_model`: if the `processed` field was changed
to `True` but the summary is empty, the flag is forced back to `False`
before saving. -/
def save_model (obj : StagingRecord) (processedChanged : Bool) : StagingRecord :=
  if processedChanged && obj.processed && obj.summary == "" then
    { obj with processed := false }
  else obj

/-! ## Summarization (`feedup/utils.py`, `summarize_articles`)

The Gemini call is external; its outcome is the `resp` argument (`Except`
for a raised exception).  The response parsing is translated line by line
from the source. -/

/-- Python `str.strip(chars)`: drop characters satisfying `strip` from both
ends. -/
def pyStrip (strip : Char → Bool) (s : String) : String :=
  String.mk (((s.toList.dropWhile strip).reverse.dropWhile strip).reverse)

/-- Python `str.strip()` with no argument. -/
def pyStripWs (s : String) : String :=
  pyStrip Char.isWhitespace s

/-- Line accumulator for Python `str.splitlines()` (modelling only `\n`
separators, the ones the Gemini response contains). -/
def linesAux : List Char → List Char → List String
  | [], acc => if acc.isEmpty then [] else [String.mk acc.reverse]
  | c :: cs, acc =>
    if c = '\n' then String.mk acc.reverse :: linesAux cs []
    else linesAux cs (c :: acc)

/-- Python `str.splitlines()`. -/
def pySplitLines (s : String) : List String :=
  linesAux s.toList []

/-- The characters stripped from each response line: `line.strip("- *\n")`. -/
def summaryLineStrip (c : Char) : Bool :=
  c = '-' || c = ' ' || c = '*' || c = '\n'

/-- The parsing loop of `summarize_articles`: collect non-empty stripped
lines until a line starts with `"try"`, contains `"prompt"`, or three
summary lines have been collected; that line (if any) becomes the prompt
line and the loop breaks. -/
def parseSummaryLoop : List String → List String → List String × Option String
  | [], acc => (acc.reverse, none)
  | l :: ls, acc =>
    let line := pyStrip summaryLineStrip l
    if "try".toList.isPrefixOf (pyLower line).toList
        || strContains (pyLower line) "prompt"
        || decide (3 ≤ acc.length) then
      (acc.reverse, some line)
    else if line ≠ "" then parseSummaryLoop ls (line :: acc)
    else parseSummaryLoop ls acc

/-- The fallback prompt `prompt_line or "Explore this concept further."`. -/
def promptOrDefault : Option String → String
  | some l => if l = "" then "Explore this concept further." else l
  | none => "Explore this concept further."

/-- Source `summarize_articles` of `feedup/utils.py`: skip short content, treat a
raised LLM exception as failure, otherwise parse the response; on success
store the joined summary lines, the prompt and the `ai_generated` flag. -/
def summarize_articles (resp : Except String String) (article : StagingRecord) :
    StagingRecord × Bool :=
  let content := pyStripWs article.raw_content
  if (pySplitWs content).length < 100 then (article, false)
  else
    match resp with
    | .error _ => (article, false)
    | .ok t =>
      let text := pyStripWs t
      let parsed := parseSummaryLoop (pySplitLines text) []
      if parsed.1.isEmpty then (article, false)
      else
        ({ article with
            summary := pyJoin "\n" (parsed.1.take 3)
            prompts := promptOrDefault parsed.2
            ai_generated := true }, true)

/-- Source `ArticleStagingAdmin.run_ai_summarization` (and the equivalent
`summarize_articles_view`): every approved staging row without a summary is
passed to `summarize_articles`; the LLM responses are indexed by row id. -/
def run_ai_summarization (resp : Nat → Except String String) (db : DB) : DB :=
  { db with staging :=
      db.staging.map fun r =>
        if r.approved && r.summary == "" then (summarize_articles (resp r.id) r).1
        else r }

/-! ## The exposed operations and the processed-implies-summary invariant -/

/-- The operations exposed on the staging store, as enumerated by the spec:
ingestion upsert, summarization, approve/unapprove, `mark_processed`
(with `mark_unprocessed`, its admin counterpart), `clear_summary`, and the
promotion command. -/
inductive AdminOp where
  | ingest (items : List FetchedItem)
  | summarize (resp : Nat → Except String String)
  | approve (ids : List Nat)
  | unapprove (ids : List Nat)
  | markProcessed (ids : List Nat)
  | markUnprocessed (ids : List Nat)
  | clearSummary (ids : List Nat)
  | promote (fails : Nat → Bool)

/-- The state transformer of each exposed operation. -/
def applyOp : AdminOp → DB → DB
  | .ingest items, db => (ingest_articles items db).1
  | .summarize resp, db => run_ai_summarization resp db
  | .approve ids, db => mark_approved ids db
  | .unapprove ids, db => mark_unapproved ids db
  | .markProcessed ids, db => (mark_processed ids db).1
  | .markUnprocessed ids, db => mark_unprocessed ids db
  | .clearSummary ids, db => clear_summary ids db
  | .promote fails, db => (process_articles_handle fails db).1

/-- Run a sequence of exposed operations. -/
def applyOps (ops : List AdminOp) (db : DB) : DB :=
  ops.foldl (fun d o => applyOp o d) db

/-- The policy invariant of the spec: a processed staging row has a
non-empty summary. -/
def ProcessedSummaryInv (db : DB) : Prop :=
  ∀ r ∈ db.staging, r.processed = true → r.summary ≠ ""

instance (db : DB) : Decidable (ProcessedSummaryInv db) := by
  unfold ProcessedSummaryInv; infer_instance

/-! ## Fetchers and fallback behaviour

Network and library effects are passed in as oracle arguments: every
request either raises (`Except.error`), returns a non-200 status, or
returns a parsed payload.  The md5 digests used for the synthetic records'
`unique_hash` fields are modelled by `md5Model` (an injective stand-in for
the digest; no claim depends on the digest's value). -/

/-- Stand-in for `hashlib.md5(s).hexdigest()`; the digest is opaque to every
claim and is modelled by the seed string itself. -/
def md5Model (s : String) : String := s

/-- Python `s.split(sep)` for a one-character separator (keeps empty
fragments). -/
def splitCharAux (sep : Char) : List Char → List Char → List String
  | [], acc => [String.mk acc.reverse]
  | c :: cs, acc =>
    if c = sep then String.mk acc.reverse :: splitCharAux sep cs []
    else splitCharAux sep cs (c :: acc)

/-- Python `s.split(sep)` for a one-character separator. -/
def pySplitChar (sep : Char) (s : String) : List String :=
  splitCharAux sep s.toList []

/-- The keyword list of `DEPARTMENT_TAGS["Computer Science"]` in `devto.py`. -/
def department_keywords : List String :=
  ["flutter", "ai", "tools", "programming", "cloud", "linux"]

/-- Source `assign_department` of `devto.py`: lower-case the tags and return the
matching department (both branches yield `"Computer Science"`, the only
configured department also being the fallback). -/
def assign_department (tags : List String) : String :=
  if (tags.map pyLower).any (fun t => department_keywords.contains t) then
    "Computer Science"
  else "Computer Science"

/-- One item of the dev.to list endpoint's JSON, with the fields the
ingestor reads. -/
structure DevtoItem where
  id : Nat
  title : String
  url : String
  published_at : Int
  description : String
  tags : String
deriving DecidableEq

/-- The network oracle for `DevtoIngestor`: the per-tag list request and the
per-article detail request.  `Except.error` is a raised exception, `none`
is a non-200 response. -/
structure DevtoEnv where
  listReq : String → Except String (Option (List DevtoItem))
  detailReq : Nat → Except String (Option String)

/-- The dict appended for one dev.to item, given the chosen content. -/
def mkDevtoArticle (it : DevtoItem) (content : String) : FetchedItem :=
  { title := it.title
    source_url := it.url
    source_name := "Dev.to"
    published_at := it.published_at
    raw_content := content
    tag_suggestions := pySplitChar ',' it.tags
    department_name := assign_department (pySplitChar ',' it.tags) }

/-- The inner item loop of `DevtoIngestor.fetch_articles` for one tag: a
raised detail request aborts the rest of the tag (the per-tag `except`
catches it) but the articles already appended are kept; a non-200 detail
response falls back to the item's `description`. -/
def devtoProcessItems (env : DevtoEnv) : List DevtoItem → List FetchedItem → List FetchedItem
  | [], acc => acc
  | it :: rest, acc =>
    match env.detailReq it.id with
    | .error _ => acc
    | .ok body? =>
      let content := match body? with | some b => b | none => it.description
      devtoProcessItems env rest (acc ++ [mkDevtoArticle it content])

/-- One tag's worth of `DevtoIngestor.fetch_articles`: a raised list request
is caught (contributing nothing), a non-200 status is skipped. -/
def devtoFetchTag (env : DevtoEnv) (tag : String) : List FetchedItem :=
  match env.listReq tag with
  | .error _ => []
  | .ok none => []
  | .ok (some items) => devtoProcessItems env items []

/-- Source `DevtoIngestor.fetch_articles`: accumulate the per-tag results; every
exception is caught inside the tag loop, so the function always returns. -/
def devto_fetch_articles (env : DevtoEnv) (tags : List String) : List FetchedItem :=
  tags.foldl (fun acc tag => acc ++ devtoFetchTag env tag) []
/-- The eight synthetic papers of `EnhancedGoogleScholarFetcher.get_enhanced_mock_data` (titles, summaries, categories and day offsets from the source; the md5 digest of the hash seed is modelled by `md5Model`). -/
def enhanced_mock_entries (today : Int) (dateStr : String) : List Paper :=
  [{ title := "Federated Learning for Privacy-Preserving Healthcare Analytics"
     summary := "This research addresses critical privacy concerns in healthcare data analytics by implementing federated learning approaches. We propose a novel framework that enables collaborative machine learning across multiple healthcare institutions while maintaining strict patient privacy. Our method demonstrates significant improvements in diagnostic accuracy while ensuring HIPAA compliance and data sovereignty."
     unique_hash := some (md5Model ("enhanced_mock_1_" ++ dateStr))
     publication_date := today - 8
     category := "Machine Learning" },
   { title := "Quantum-Resistant Cryptographic Protocols for IoT Networks"
     summary := "As quantum computing advances threaten current cryptographic standards, this paper presents novel quantum-resistant cryptographic protocols specifically designed for resource-constrained IoT devices. We introduce lightweight post-quantum algorithms that maintain security while operating efficiently on devices with limited computational power and battery life."
     unique_hash := some (md5Model ("enhanced_mock_2_" ++ dateStr))
     publication_date := today - 22
     category := "Cybersecurity" },
   { title := "Real-Time Computer Vision for Autonomous Drone Navigation in Complex Environments"
     summary := "We present a comprehensive computer vision system for autonomous drone navigation in GPS-denied and visually complex environments. Our approach combines SLAM, semantic segmentation, and obstacle avoidance using lightweight deep learning models optimized for real-time processing on embedded hardware. Extensive testing in urban and natural environments validates our approach."
     unique_hash := some (md5Model ("enhanced_mock_3_" ++ dateStr))
     publication_date := today - 15
     category := "Computer Vision" },
   { title := "Microservices Architecture Patterns for Large-Scale E-commerce Platforms"
     summary := "This paper analyzes microservices architecture patterns specifically tailored for large-scale e-commerce platforms. We examine service decomposition strategies, data consistency patterns, and fault tolerance mechanisms. Our case study with a major e-commerce platform demonstrates 40% improvement in system reliability and 60% reduction in deployment time."
     unique_hash := some (md5Model ("enhanced_mock_4_" ++ dateStr))
     publication_date := today - 35
     category := "Software Engineering" },
   { title := "Conversational AI for Accessibility: Design Principles and User Experience Guidelines"
     summary := "This research establishes comprehensive design principles for conversational AI systems that serve users with disabilities. We conducted extensive user studies with visually impaired, hearing impaired, and motor-impaired users to understand their unique needs. Our guidelines cover voice interface design, multi-modal interaction, and adaptive behavior patterns."
     unique_hash := some (md5Model ("enhanced_mock_5_" ++ dateStr))
     publication_date := today - 28
     category := "Human-Computer Interaction" },
   { title := "Graph Neural Networks for Social Media Misinformation Detection"
     summary := "We propose a novel graph neural network architecture for detecting misinformation in social media networks. Our approach models information propagation patterns, user credibility networks, and content features to identify false information. Evaluation on real-world datasets shows 89% accuracy in misinformation detection with minimal false positives."
     unique_hash := some (md5Model ("enhanced_mock_6_" ++ dateStr))
     publication_date := today - 18
     category := "Machine Learning" },
   { title := "Edge Computing Frameworks for Real-Time Industrial IoT Analytics"
     summary := "This work presents comprehensive edge computing frameworks designed for real-time analytics in industrial IoT environments. We address latency-critical applications such as predictive maintenance, quality control, and safety monitoring. Our distributed architecture reduces cloud dependency by 70% while maintaining sub-millisecond response times."
     unique_hash := some (md5Model ("enhanced_mock_7_" ++ dateStr))
     publication_date := today - 42
     category := "Distributed Systems" },
   { title := "Automated Code Review Using Large Language Models and Static Analysis"
     summary := "We combine large language models with traditional static analysis tools to create an automated code review system. Our approach identifies bugs, security vulnerabilities, and code quality issues while providing human-readable explanations. Testing on open-source repositories shows 85% accuracy in identifying real issues with 12% false positive rate."
     unique_hash := some (md5Model ("enhanced_mock_8_" ++ dateStr))
     publication_date := today - 12
     category := "Software Engineering" }]

/-- The two synthetic papers of `SimpleGoogleScholarFetcher.get_mock_data`. -/
def simple_mock_entries (today : Int) (dateStr : String) : List Paper :=
  [{ title := "Deep Learning for Autonomous Vehicle Perception in Adverse Weather"
     summary := "This research addresses the challenge of autonomous vehicle perception in adverse weather conditions such as rain, snow, and fog. We propose robust deep learning models that maintain high accuracy in object detection and lane recognition despite challenging visibility conditions."
     unique_hash := some (md5Model ("simple_paper_1_" ++ dateStr))
     publication_date := today - 12
     category := "Computer Vision" },
   { title := "Blockchain-Based Supply Chain Transparency and Traceability"
     summary := "We explore blockchain technology applications in supply chain management, focusing on transparency and traceability. Our framework enables end-to-end tracking of products from manufacturing to delivery while ensuring data integrity and preventing counterfeiting."
     unique_hash := some (md5Model ("simple_paper_2_" ++ dateStr))
     publication_date := today - 28
     category := "Distributed Systems" }]

/-- The ten synthetic papers of `DataIngestionService._get_fallback_mock_data`. -/
def fallback_mock_entries (today : Int) (dateStr : String) : List Paper :=
  [{ title := "Advances in Machine Learning for Natural Language Processing"
     summary := "This comprehensive survey examines recent developments in machine learning techniques applied to natural language processing. We cover transformer architectures, attention mechanisms, and their applications in machine translation, sentiment analysis, and text generation. The paper also discusses emerging trends like few-shot learning and transfer learning in NLP contexts."
     unique_hash := some (md5Model ("fallback_paper_1_" ++ dateStr))
     publication_date := today - 15
     category := "Natural Language Processing" },
   { title := "Distributed Systems Architecture for Cloud-Native Applications"
     summary := "An in-depth analysis of distributed systems patterns and their implementation in modern cloud-native applications. This work covers microservices architecture, containerization with Docker and Kubernetes, service mesh technologies, and distributed data management strategies. We present case studies from major tech companies and provide practical guidelines for system architects."
     unique_hash := some (md5Model ("fallback_paper_2_" ++ dateStr))
     publication_date := today - 30
     category := "Distributed Systems" },
   { title := "Computer Vision Applications in Autonomous Vehicle Navigation"
     summary := "This paper explores the latest computer vision techniques used in autonomous vehicle systems. We examine real-time object detection algorithms, depth estimation methods, semantic segmentation for road understanding, and sensor fusion approaches. The work includes extensive testing on various datasets and real-world scenarios."
     unique_hash := some (md5Model ("fallback_paper_3_" ++ dateStr))
     publication_date := today - 45
     category := "Computer Vision" },
   { title := "Cybersecurity in IoT Networks: Threats and Countermeasures"
     summary := "A comprehensive study of cybersecurity challenges in Internet of Things networks. We analyze common attack vectors including DDoS, man-in-the-middle attacks, and device hijacking. The paper presents novel detection algorithms using machine learning and proposes a multi-layered security framework for IoT deployments."
     unique_hash := some (md5Model ("fallback_paper_4_" ++ dateStr))
     publication_date := today - 60
     category := "Cybersecurity" },
   { title := "Software Engineering Practices for Large-Scale AI Systems"
     summary := "This study investigates software engineering best practices for developing and maintaining large-scale artificial intelligence systems. We examine code organization, testing strategies for ML models, continuous integration/deployment for AI applications, and monitoring techniques for production ML systems."
     unique_hash := some (md5Model ("fallback_paper_5_" ++ dateStr))
     publication_date := today - 20
     category := "Software Engineering" },
   { title := "Data Science Approaches for Climate Change Modeling"
     summary := "We present novel data science methodologies for climate change prediction and analysis. This work combines big data analytics, machine learning algorithms, and statistical modeling to process climate datasets. The paper includes case studies on temperature prediction, weather pattern analysis, and environmental impact assessment."
     unique_hash := some (md5Model ("fallback_paper_6_" ++ dateStr))
     publication_date := today - 35
     category := "Data Science" },
   { title := "Human-Computer Interaction in Virtual Reality Environments"
     summary := "An exploration of user interface design principles and interaction paradigms in virtual reality systems. We study gesture recognition, haptic feedback, eye tracking, and voice commands in VR contexts. The research includes usability studies and guidelines for creating intuitive VR experiences."
     unique_hash := some (md5Model ("fallback_paper_7_" ++ dateStr))
     publication_date := today - 50
     category := "Human-Computer Interaction" },
   { title := "Advanced Algorithms for Graph Neural Networks"
     summary := "This paper presents new algorithmic approaches for training and optimizing graph neural networks. We introduce efficient algorithms for large-scale graph processing, novel attention mechanisms for graph structures, and techniques for handling dynamic graphs. Experimental results show significant improvements in performance and scalability."
     unique_hash := some (md5Model ("fallback_paper_8_" ++ dateStr))
     publication_date := today - 25
     category := "Algorithms" },
   { title := "Database Systems for Real-Time Analytics"
     summary := "We examine modern database architectures designed for real-time analytics workloads. This work covers column-store databases, in-memory computing, distributed query processing, and stream processing systems. The paper includes performance benchmarks and recommendations for selecting appropriate database technologies."
     unique_hash := some (md5Model ("fallback_paper_9_" ++ dateStr))
     publication_date := today - 40
     category := "Database Systems" },
   { title := "Quantum Computing Applications in Cryptography"
     summary := "An investigation of quantum computing impacts on modern cryptographic systems. We analyze quantum algorithms for breaking traditional encryption methods and explore post-quantum cryptography solutions. The paper discusses practical implications for cybersecurity and provides recommendations for transitioning to quantum-resistant encryption."
     unique_hash := some (md5Model ("fallback_paper_10_" ++ dateStr))
     publication_date := today - 55
     category := "Cybersecurity" }]

/-- The outcome of the scholarly search phase inside
`EnhancedGoogleScholarFetcher.fetch`: the scholarly library may be missing,
the search loop may raise (including the timeout), or it accumulates a list
of processed papers. -/
inductive ScholarOutcome where
  | unavailable
  | raised (msg : String)
  | results (papers : List Paper)

/-- Source `EnhancedGoogleScholarFetcher.get_enhanced_mock_data`. -/
def get_enhanced_mock_data (today : Int) (dateStr : String) (max_papers : Nat) : List Paper :=
  (enhanced_mock_entries today dateStr).take max_papers

/-- Source `EnhancedGoogleScholarFetcher.fetch`: mock data when scholarly is
unavailable, when the search phase raises or times out, or when it returns
no results; otherwise deduplicate, quality-filter and truncate. -/
def enhanced_fetch (today : Int) (dateStr : String) (outcome : ScholarOutcome)
    (max_papers : Nat) : List Paper :=
  match outcome with
  | .unavailable => get_enhanced_mock_data today dateStr max_papers
  | .raised _ => get_enhanced_mock_data today dateStr max_papers
  | .results [] => get_enhanced_mock_data today dateStr max_papers
  | .results papers => (apply_quality_filters (smart_deduplication papers)).take max_papers

/-- Source `SimpleGoogleScholarFetcher.fetch`: always the mock data. -/
def simple_fetch (today : Int) (dateStr : String) (max_papers : Nat) : List Paper :=
  (simple_mock_entries today dateStr).take max_papers

/-- Source `DataIngestionService._store_research_data`: the `ResearchUpdate` table
is modelled by its list of `unique_hash` values; an item whose hash already
exists is skipped, otherwise it is created and counted. -/
def store_research_data (db : List (Option String)) (items : List Paper) :
    List (Option String) × Nat :=
  items.foldl
    (fun acc item =>
      if acc.1.contains item.unique_hash then acc
      else (acc.1 ++ [item.unique_hash], acc.2 + 1))
    (db, 0)

/-- The fetcher loop of `DataIngestionService.fetch_and_store_research`: a
raised `fetch()` is caught and the next fetcher is tried; an empty result
is logged and the next fetcher is tried; the first fetcher returning data
has its data stored and the loop breaks. -/
def serviceLoop (db : List (Option String)) :
    List (Except String (List Paper)) → List (Option String) × Nat
  | [] => (db, 0)
  | o :: rest =>
    match o with
    | .error _ => serviceLoop db rest
    | .ok [] => serviceLoop db rest
    | .ok papers => store_research_data db papers

/-- Source `DataIngestionService.fetch_and_store_research`: with no fetchers
configured the fallback mock data is stored directly; otherwise the fetcher
loop runs, and if it added nothing the fallback mock data is stored. -/
def fetch_and_store_research (outcomes : List (Except String (List Paper)))
    (fallback : List Paper) (db : List (Option String)) : List (Option String) × Nat :=
  if outcomes.isEmpty then store_research_data db fallback
  else
    let res := serviceLoop db outcomes
    if res.2 = 0 then store_research_data res.1 fallback else res

/-- The duplicate-freedom relation between two kept papers: distinct
fingerprints and distinct normalized titles. -/
def DedupDistinct (p q : Paper) : Prop :=
  p.unique_hash ≠ q.unique_hash ∧ normalizedTitle p.title ≠ normalizedTitle q.title

/-- The deduplication described by the spec's words, for comparison with the
code: keep an item exactly when no *earlier item of the batch* (kept or
dropped) has the same fingerprint or the same normalized title. -/
def specDedupAux : List Paper → List Paper → List Paper
  | [], _ => []
  | p :: ps, earlier =>
    if earlier.any (fun q => q.unique_hash == p.unique_hash
        || normalizedTitle q.title == normalizedTitle p.title) then
      specDedupAux ps (earlier ++ [p])
    else
      p :: specDedupAux ps (earlier ++ [p])

/-- First-occurrence-per-fingerprint-and-title filter, as the claim states it. -/
def spec_first_occurrence_dedup (papers : List Paper) : List Paper :=
  specDedupAux papers []

/-- Batch items exercising the seen-set subtlety: `dedupA` and `dedupB`
share a fingerprint, `dedupB` and `dedupC` share a normalized title. -/
def dedupA : Paper :=
  { title := "Alpha Study One", summary := "irrelevant", unique_hash := some "h1",
    publication_date := 0, category := "Algorithms" }

/-- Second batch item: same fingerprint as `dedupA`, fresh title. -/
def dedupB : Paper :=
  { title := "Beta Study Two", summary := "irrelevant", unique_hash := some "h1",
    publication_date := 0, category := "Algorithms" }

/-- Third batch item: fresh fingerprint, same normalized title as `dedupB`. -/
def dedupC : Paper :=
  { title := "Beta Study Two!", summary := "irrelevant", unique_hash := some "h2",
    publication_date := 0, category := "Algorithms" }

/-- A paper that fails the quality gate (summary shorter than 30
characters) and occurs first for its normalized title. -/
def qualityFailPaper : Paper :=
  { title := "A Comprehensive Study Of Topic", summary := "short",
    unique_hash := some "qh1", publication_date := 0, category := "Algorithms" }

/-- A later paper with the same normalized title that passes the gate. -/
def qualityPassPaper : Paper :=
  { title := "A comprehensive study of topic!",
    summary := "This summary is long enough to pass the gate.",
    unique_hash := some "qh2", publication_date := 0, category := "Algorithms" }

/-! ## Derived notions and concrete fixtures used by the theorems -/

/-- Marking several primary keys processed (the accumulated effect of the
promotion loop's saves). -/
def setProcessedByIds (ids : List Nat) (l : List StagingRecord) : List StagingRecord :=
  l.map (fun r => if ids.contains r.id then { r with processed := true } else r)

/-- The schema invariant on the production table: `source_url` values are
pairwise distinct. -/
def UniqueUrls (db : DB) : Prop :=
  (db.articles.map (fun a => a.source_url)).Nodup

instance (db : DB) : Decidable (UniqueUrls db) := by
  unfold UniqueUrls; infer_instance

/-- The exposed operations that do not touch the processed/summary pair in
the violating direction: everything except `clear_summary` and the
promotion command. -/
def SafeOp : AdminOp → Prop
  | .clearSummary _ => False
  | .promote _ => False
  | _ => True

/-- An approved, unprocessed, summarized staging row. -/
def stagedFixture : StagingRecord :=
  { id := 1, title := "Staged title", source_url := "https://example.org/a",
    source_name := "Dev.to", raw_content := "body", tag_suggestions := ["ai"],
    summary := "a summary", prompts := "", ai_generated := false,
    approved := true, processed := false, published_at := 0 }

/-- A pre-existing production row with a different `source_url`. -/
def articleFixtureB : Article :=
  { title := "Other", source_url := "https://example.org/b", source_name := "Medium",
    summary := "s", prompts := "", published_at := 0, staging_article := 9 }

/-- A database with one promotion candidate and one unrelated production row. -/
def promoteFixtureDB : DB :=
  { staging := [stagedFixture], articles := [articleFixtureB], next_id := 2 }

/-- A database with one staging row and an empty production table. -/
def invariantDB : DB :=
  { staging := [stagedFixture], articles := [], next_id := 2 }

/-- An empty database. -/
def emptyDB : DB :=
  { staging := [], articles := [], next_id := 1 }

/-- A fetched item for the ingestion fixtures. -/
def itemFixture : FetchedItem :=
  { title := "Fetched title", source_url := "https://example.org/i",
    source_name := "Dev.to", raw_content := "content", tag_suggestions := ["ai"],
    published_at := 0, department_name := "Computer Science" }

/-- A staging row that is already `processed=True` while its summary is
empty (the state `clear_summary` produces from a processed row). -/
def processedNoSummary : StagingRecord :=
  { id := 4, title := "Cleared", source_url := "https://example.org/c",
    source_name := "Dev.to", raw_content := "body", tag_suggestions := [],
    summary := "", prompts := "", ai_generated := false,
    approved := true, processed := true, published_at := 0 }

/-- A database holding only `processedNoSummary`. -/
def processedNoSummaryDB : DB :=
  { staging := [processedNoSummary], articles := [], next_id := 5 }

/-- A dev.to network oracle on which every request raises. -/
def failingDevtoEnv : DevtoEnv :=
  { listReq := fun _ => .error "connection refused"
    detailReq := fun _ => .error "connection refused" }

/-- Some staging row already carries the item's `source_url`. -/
def UrlPresent (db : DB) (it : FetchedItem) : Prop :=
  ∃ r ∈ db.staging, r.source_url = it.source_url

/-! ## Lemmas about the deduplication pass -/

theorem dedupGo_cons (p : Paper) (ps : List Paper) (sh : List (Option String))
    (st : List String) :
    dedupGo (p :: ps) sh st =
      if p.unique_hash ∈ sh then dedupGo ps sh st
      else if normalizedTitle p.title ∈ st then dedupGo ps sh st
      else p :: dedupGo ps (p.unique_hash :: sh) (normalizedTitle p.title :: st) := rfl

theorem dedupSeen_cons (p : Paper) (ps : List Paper) (sh : List (Option String))
    (st : List String) :
    dedupSeen (p :: ps) sh st =
      if p.unique_hash ∈ sh then dedupSeen ps sh st
      else if normalizedTitle p.title ∈ st then dedupSeen ps sh st
      else dedupSeen ps (p.unique_hash :: sh) (normalizedTitle p.title :: st) := rfl

theorem dedupGo_sublist (ps : List Paper) :
    ∀ sh st, List.Sublist (dedupGo ps sh st) ps := by
  induction ps with
  | nil => intro sh st; simp [dedupGo]
  | cons p ps ih =>
    intro sh st
    unfold dedupGo
    by_cases h1 : p.unique_hash ∈ sh
    · simpa [h1] using (ih sh st).cons p
    · by_cases h2 : normalizedTitle p.title ∈ st
      · simpa [h1, h2] using (ih sh st).cons p
      · simpa [h1, h2] using (ih _ _).cons₂ p

theorem mem_dedupGo_avoid (ps : List Paper) :
    ∀ sh st q, q ∈ dedupGo ps sh st →
      q.unique_hash ∉ sh ∧ normalizedTitle q.title ∉ st := by
  induction ps with
  | nil => intro sh st q hq; simp [dedupGo] at hq
  | cons p ps ih =>
    intro sh st q hq
    unfold dedupGo at hq
    by_cases h1 : p.unique_hash ∈ sh
    · simp only [h1, if_true] at hq
      exact ih _ _ _ hq
    · by_cases h2 : normalizedTitle p.title ∈ st
      · simp only [h1, h2, if_false, if_true] at hq
        exact ih _ _ _ hq
      · simp only [h1, h2, if_false, List.mem_cons] at hq
        rcases hq with rfl | hq
        · exact ⟨h1, h2⟩
        · have h3 := ih _ _ _ hq
          exact ⟨fun hm => h3.1 (List.mem_cons_of_mem _ hm),
                 fun hm => h3.2 (List.mem_cons_of_mem _ hm)⟩

theorem dedupGo_pairwise (ps : List Paper) :
    ∀ sh st, (dedupGo ps sh st).Pairwise DedupDistinct := by
  induction ps with
  | nil => intro sh st; simp [dedupGo]
  | cons p ps ih =>
    intro sh st
    unfold dedupGo
    by_cases h1 : p.unique_hash ∈ sh
    · simpa [h1] using ih sh st
    · by_cases h2 : normalizedTitle p.title ∈ st
      · simpa [h1, h2] using ih sh st
      · simp only [h1, h2, if_false, List.pairwise_cons]
        refine ⟨fun q hq => ?_, ih _ _⟩
        have h3 := mem_dedupGo_avoid _ _ _ _ hq
        refine ⟨fun he => h3.1 ?_, fun he => h3.2 ?_⟩
        · exact he ▸ List.mem_cons_self _ _
        · exact he ▸ List.mem_cons_self _ _

theorem dedupSeen_mono (ps : List Paper) :
    ∀ sh st, sh ⊆ (dedupSeen ps sh st).1 ∧ st ⊆ (dedupSeen ps sh st).2 := by
  induction ps with
  | nil => intro sh st; simp [dedupSeen]
  | cons p ps ih =>
    intro sh st
    unfold dedupSeen
    by_cases h1 : p.unique_hash ∈ sh
    · simpa [h1] using ih sh st
    · by_cases h2 : normalizedTitle p.title ∈ st
      · simpa [h1, h2] using ih sh st
      · simp only [h1, h2, if_false]
        have h3 := ih (p.unique_hash :: sh) (normalizedTitle p.title :: st)
        exact ⟨fun x hx => h3.1 (List.mem_cons_of_mem _ hx),
               fun x hx => h3.2 (List.mem_cons_of_mem _ hx)⟩

theorem dedupSeen_covers (ps : List Paper) :
    ∀ sh st p, p ∈ ps →
      p.unique_hash ∈ (dedupSeen ps sh st).1 ∨
      normalizedTitle p.title ∈ (dedupSeen ps sh st).2 := by
  induction ps with
  | nil => intro sh st p hp; simp at hp
  | cons p0 ps ih =>
    intro sh st p hp
    unfold dedupSeen
    by_cases h1 : p0.unique_hash ∈ sh
    · simp only [h1, if_true]
      rcases List.mem_cons.mp hp with rfl | hp
      · exact Or.inl ((dedupSeen_mono ps sh st).1 h1)
      · exact ih sh st p hp
    · by_cases h2 : normalizedTitle p0.title ∈ st
      · simp only [h1, h2, if_false, if_true]
        rcases List.mem_cons.mp hp with rfl | hp
        · exact Or.inr ((dedupSeen_mono ps sh st).2 h2)
        · exact ih sh st p hp
      · simp only [h1, h2, if_false]
        rcases List.mem_cons.mp hp with rfl | hp
        · exact Or.inl
            ((dedupSeen_mono ps _ _).1 (List.mem_cons_self _ _))
        · exact ih _ _ p hp

theorem dedupGo_append (l1 : List Paper) :
    ∀ l2 sh st, dedupGo (l1 ++ l2) sh st =
      dedupGo l1 sh st ++ dedupGo l2 (dedupSeen l1 sh st).1 (dedupSeen l1 sh st).2 := by
  induction l1 with
  | nil => intro l2 sh st; simp [dedupGo, dedupSeen]
  | cons p l1 ih =>
    intro l2 sh st
    simp only [List.cons_append, dedupGo_cons, dedupSeen_cons]
    by_cases h1 : p.unique_hash ∈ sh
    · simp [h1, ih]
    · by_cases h2 : normalizedTitle p.title ∈ st
      · simp [h1, h2, ih]
      · simp [h1, h2, ih]

theorem dedupGo_eq_nil_of_covered (ps : List Paper) :
    ∀ sh st, (∀ p ∈ ps, p.unique_hash ∈ sh ∨ normalizedTitle p.title ∈ st) →
      dedupGo ps sh st = [] := by
  induction ps with
  | nil => intro sh st _; simp [dedupGo]
  | cons p ps ih =>
    intro sh st hcov
    unfold dedupGo
    by_cases h1 : p.unique_hash ∈ sh
    · simp only [h1, if_true]
      exact ih sh st (fun q hq => hcov q (List.mem_cons_of_mem _ hq))
    · have h2 : normalizedTitle p.title ∈ st :=
        (hcov p (List.mem_cons_self _ _)).resolve_left h1
      simp only [h1, h2, if_false, if_true]
      exact ih sh st (fun q hq => hcov q (List.mem_cons_of_mem _ hq))

theorem smart_deduplication_idem (B : List Paper) :
    smart_deduplication (B ++ B) = smart_deduplication B := by
  unfold smart_deduplication
  rw [dedupGo_append]
  rw [dedupGo_eq_nil_of_covered B _ _ (fun p hp => dedupSeen_covers B [] [] p hp)]
  simp

theorem dedupGo_cover (ps : List Paper) :
    ∀ sh st p, p ∈ ps →
      p.unique_hash ∈ sh ∨ normalizedTitle p.title ∈ st ∨
      ∃ q ∈ dedupGo ps sh st,
        q.unique_hash = p.unique_hash ∨ normalizedTitle q.title = normalizedTitle p.title := by
  induction ps with
  | nil => intro sh st p hp; simp at hp
  | cons p0 ps ih =>
    intro sh st p hp
    unfold dedupGo
    by_cases h1 : p0.unique_hash ∈ sh
    · simp only [h1, if_true]
      rcases List.mem_cons.mp hp with rfl | hp
      · exact Or.inl h1
      · exact ih sh st p hp
    · by_cases h2 : normalizedTitle p0.title ∈ st
      · simp only [h1, h2, if_false, if_true]
        rcases List.mem_cons.mp hp with rfl | hp
        · exact Or.inr (Or.inl h2)
        · exact ih sh st p hp
      · simp only [h1, h2, if_false]
        rcases List.mem_cons.mp hp with rfl | hp
        · exact Or.inr (Or.inr ⟨p, List.mem_cons_self _ _, Or.inl rfl⟩)
        · rcases ih (p0.unique_hash :: sh) (normalizedTitle p0.title :: st) p hp with
            hh | ht | ⟨q, hq, hmatch⟩
          · rcases List.mem_cons.mp hh with he | hh
            · exact Or.inr (Or.inr ⟨p0, List.mem_cons_self _ _, Or.inl he.symm⟩)
            · exact Or.inl hh
          · rcases List.mem_cons.mp ht with he | ht
            · exact Or.inr (Or.inr ⟨p0, List.mem_cons_self _ _, Or.inr he.symm⟩)
            · exact Or.inr (Or.inl ht)
          · exact Or.inr (Or.inr ⟨q, List.mem_cons_of_mem _ hq, hmatch⟩)

/-! ## Settling the deduplication claims -/

/-- C7, counterexample: `_smart_deduplication` does not keep "exactly the
first-occurring item for each fingerprint and for each normalized title".
`dedupB` is dropped (duplicate fingerprint), but because the seen sets
record only survivors, `dedupC` — the *second* occurrence of its
normalized title — survives, while the claimed first-occurrence filter
would drop it. -/
theorem smart_dedup_not_first_occurrence :
    smart_deduplication [dedupA, dedupB, dedupC] = [dedupA, dedupC] ∧
    spec_first_occurrence_dedup [dedupA, dedupB, dedupC] = [dedupA] ∧
    normalizedTitle dedupC.title = normalizedTitle dedupB.title := by
  refine ⟨by decide, by decide, by decide⟩

/-- C7 (amended): `_smart_deduplication` keeps a subsequence of the batch
(survivors in input order); an item is kept exactly when neither its
fingerprint nor its normalized title matches an earlier *kept* item, so the
survivors have pairwise-distinct fingerprints and pairwise-distinct
normalized titles and every batch item shares its fingerprint or its
normalized title with some survivor; and filtering a batch concatenated
with itself yields the same items as filtering the batch alone. -/
theorem smart_deduplication_characterization (B : List Paper) :
    List.Sublist (smart_deduplication B) B ∧
    (smart_deduplication B).Pairwise DedupDistinct ∧
    (∀ p ∈ B, ∃ q ∈ smart_deduplication B,
      q.unique_hash = p.unique_hash ∨
        normalizedTitle q.title = normalizedTitle p.title) ∧
    smart_deduplication (B ++ B) = smart_deduplication B := by
  refine ⟨dedupGo_sublist B [] [], dedupGo_pairwise B [] [], ?_, smart_deduplication_idem B⟩
  intro p hp
  rcases dedupGo_cover B [] [] p hp with h | h | h
  · simp at h
  · simp at h
  · exact h

/-- Witness for the amended C7 theorem at a concrete batch: the dropped
`dedupB` shares its fingerprint or title with a survivor. -/
theorem smart_deduplication_characterization_witness :
    ∃ q ∈ smart_deduplication [dedupA, dedupB, dedupC],
      q.unique_hash = dedupB.unique_hash ∨
        normalizedTitle q.title = normalizedTitle dedupB.title :=
  (smart_deduplication_characterization [dedupA, dedupB, dedupC]).2.2.1 dedupB (by decide)

/-- C8, counterexample: running the quality gate after deduplication is not
the same as running it before.  The first occurrence of a title can fail
the gate; dedup-then-quality then loses the batch entirely, while
quality-then-dedup keeps the later, passing duplicate. -/
theorem quality_dedup_order_counterexample :
    List.filter is_quality_paper
        (smart_deduplication [qualityFailPaper, qualityPassPaper]) = [] ∧
    smart_deduplication
        (List.filter is_quality_paper [qualityFailPaper, qualityPassPaper]) =
      [qualityPassPaper] := by
  refine ⟨by decide, by decide⟩

/-- C8 (amended): the two orderings agree on batches whose items all pass
the quality gate (both then reduce to `_smart_deduplication` alone); they
are not equal in general. -/
theorem quality_filter_dedup_comm_of_all_quality (B : List Paper)
    (hq : ∀ p ∈ B, is_quality_paper p = true) :
    List.filter is_quality_paper (smart_deduplication B) =
      smart_deduplication (List.filter is_quality_paper B) := by
  have h1 : List.filter is_quality_paper B = B := List.filter_eq_self.mpr (by
    intro a ha; simp [hq a ha])
  have h2 : List.filter is_quality_paper (smart_deduplication B) = smart_deduplication B :=
    List.filter_eq_self.mpr (by
      intro a ha; simp [hq a ((dedupGo_sublist B [] []).subset ha)])
  rw [h1, h2]

/-- Witness for the amended C8 theorem at a concrete all-quality batch. -/
theorem quality_filter_dedup_comm_witness :
    List.filter is_quality_paper (smart_deduplication [qualityPassPaper]) =
      smart_deduplication (List.filter is_quality_paper [qualityPassPaper]) :=
  quality_filter_dedup_comm_of_all_quality [qualityPassPaper] (by decide)

/-! ## Lemmas about the promotion command -/

theorem promoteStep_fault (fails : Nat → Bool) (db : DB) (n : Nat)
    (staged : StagingRecord) (h : fails staged.id = true) :
    promoteStep fails (db, n) staged = (db, n) := by
  unfold promoteStep; simp [h]

theorem promoteStep_skip (fails : Nat → Bool) (db : DB) (n : Nat)
    (staged : StagingRecord) (h1 : fails staged.id = false)
    (h2 : db.articles.any (fun a => a.source_url == staged.source_url) = true) :
    promoteStep fails (db, n) staged =
      ({ db with staging := setProcessedById staged.id db.staging }, n) := by
  unfold promoteStep; simp [h1, h2]

theorem promoteStep_create (fails : Nat → Bool) (db : DB) (n : Nat)
    (staged : StagingRecord) (h1 : fails staged.id = false)
    (h2 : db.articles.any (fun a => a.source_url == staged.source_url) = false) :
    promoteStep fails (db, n) staged =
      ({ db with staging := setProcessedById staged.id db.staging,
                 articles := db.articles ++ [mkArticle staged] }, n + 1) := by
  unfold promoteStep; simp [h1, h2]

theorem setProcessedByIds_cons (i : Nat) (ids : List Nat) (l : List StagingRecord) :
    setProcessedByIds (i :: ids) l = setProcessedByIds ids (setProcessedById i l) := by
  unfold setProcessedByIds setProcessedById
  rw [List.map_map]
  apply List.map_congr_left
  intro r _
  by_cases hi : r.id = i
  · by_cases hm : ids.contains r.id <;>
      simp [Function.comp, hi, hm, List.contains_cons]
  · by_cases hm : ids.contains r.id <;>
      simp [Function.comp, hi, hm, List.contains_cons]

theorem promoteFold_staging_nofault (cs : List StagingRecord) :
    ∀ (db : DB) (n : Nat),
      ((cs.foldl (promoteStep (fun _ => false)) (db, n)).1).staging =
        setProcessedByIds (cs.map (fun r => r.id)) db.staging := by
  induction cs with
  | nil => intro db n; simp [setProcessedByIds]
  | cons c cs ih =>
    intro db n
    rw [List.foldl_cons, List.map_cons, setProcessedByIds_cons]
    by_cases h2 : db.articles.any (fun a => a.source_url == c.source_url)
    · rw [promoteStep_skip (fun _ => false) db n c rfl h2]
      exact ih _ n
    · rw [promoteStep_create (fun _ => false) db n c rfl (by simpa using h2)]
      exact ih _ (n + 1)

theorem promoteFold_articles_len (fails : Nat → Bool) (cs : List StagingRecord) :
    ∀ (db : DB) (n : Nat),
      ((cs.foldl (promoteStep fails) (db, n)).1).articles.length + n =
        db.articles.length + (cs.foldl (promoteStep fails) (db, n)).2 := by
  induction cs with
  | nil => intro db n; simp
  | cons c cs ih =>
    intro db n
    rw [List.foldl_cons]
    by_cases h1 : fails c.id
    · rw [promoteStep_fault fails db n c h1]
      exact ih db n
    · by_cases h2 : db.articles.any (fun a => a.source_url == c.source_url)
      · rw [promoteStep_skip fails db n c (by simpa using h1) h2]
        have := ih { db with staging := setProcessedById c.id db.staging } n
        simpa using this
      · rw [promoteStep_create fails db n c (by simpa using h1) (by simpa using h2)]
        have := ih { db with staging := setProcessedById c.id db.staging,
                             articles := db.articles ++ [mkArticle c] } (n + 1)
        simp only [List.length_append, List.length_cons, List.length_nil] at this ⊢
        omega

theorem promoteFold_unique_urls (fails : Nat → Bool) (cs : List StagingRecord) :
    ∀ (db : DB) (n : Nat), UniqueUrls db →
      UniqueUrls (cs.foldl (promoteStep fails) (db, n)).1 := by
  induction cs with
  | nil => intro db n h; simpa using h
  | cons c cs ih =>
    intro db n h
    rw [List.foldl_cons]
    by_cases h1 : fails c.id
    · rw [promoteStep_fault fails db n c h1]
      exact ih db n h
    · by_cases h2 : db.articles.any (fun a => a.source_url == c.source_url)
      · rw [promoteStep_skip fails db n c (by simpa using h1) h2]
        exact ih _ n h
      · rw [promoteStep_create fails db n c (by simpa using h1) (by simpa using h2)]
        apply ih _ (n + 1)
        unfold UniqueUrls at h ⊢
        simp only [List.map_append, List.map_cons, List.map_nil]
        rw [List.nodup_append]
        refine ⟨h, List.nodup_singleton _, ?_⟩
        intro u hu hu2
        simp only [List.mem_singleton] at hu2
        subst hu2
        simp only [List.mem_map] at hu
        rcases hu with ⟨a, ha, hau⟩
        have hany : db.articles.any (fun a => a.source_url == c.source_url) = true := by
          refine List.any_eq_true.mpr ⟨a, ha, ?_⟩
          simp only [mkArticle] at hau
          simp [hau]
        simp [hany] at h2

theorem handle_eq_of_no_candidates (fails : Nat → Bool) (db : DB)
    (h : promotionCandidates db = []) :
    process_articles_handle fails db = (db, 0) := by
  unfold process_articles_handle
  rw [h]
  rfl

theorem promotionCandidates_after_nofault (db : DB) :
    promotionCandidates (process_articles_handle (fun _ => false) db).1 = [] := by
  unfold process_articles_handle promotionCandidates
  rw [promoteFold_staging_nofault
        (List.filter (fun r => r.approved && !r.processed) db.staging) db 0]
  rw [List.filter_eq_nil_iff]
  intro r' hr'
  unfold setProcessedByIds at hr'
  rcases List.mem_map.mp hr' with ⟨r, hr, rfl⟩
  by_cases hc : ((List.filter (fun r => r.approved && !r.processed) db.staging).map
      (fun r => r.id)).contains r.id
  · simp only [hc, if_true]
    simp
  · simp only [hc, Bool.false_eq_true, if_false]
    intro hp
    apply hc
    have hmem : r ∈ List.filter (fun r => r.approved && !r.processed) db.staging :=
      List.mem_filter.mpr ⟨hr, by simpa using hp⟩
    have hid := List.mem_map_of_mem (fun r : StagingRecord => r.id) hmem
    simpa [List.contains, List.elem_iff] using hid

/-! ## Settling the promotion claims -/

/-- C1: running `process_articles` twice in a row (the first run completing
without exceptions, nothing modified in between) is idempotent: the second
run — whatever exceptions it would encounter — finds an empty candidate
set, changes nothing and reports zero promotions, because the first run set
`processed=True` on every selected row. -/
theorem promotion_rerun_creates_nothing (db : DB) (fails2 : Nat → Bool) :
    process_articles_handle fails2 (process_articles_handle (fun _ => false) db).1 =
      ((process_articles_handle (fun _ => false) db).1, 0) :=
  handle_eq_of_no_candidates fails2 _ (promotionCandidates_after_nofault db)

/-- C3: per-candidate behaviour of the promotion loop.  A non-faulting
candidate whose `source_url` already has a production row only gets its
`processed` flag set (no creation, no error, no count); a non-faulting
candidate without one creates exactly one production row and gets
`processed` set, counting one success; and a faulting candidate leaves the
state untouched while the loop goes on to process the remaining
candidates. -/
theorem promotion_candidate_isolation (fails : Nat → Bool) (db : DB) (n : Nat)
    (staged : StagingRecord) (cs : List StagingRecord) :
    (fails staged.id = false →
      (db.articles.any (fun a => a.source_url == staged.source_url) = true →
        promoteStep fails (db, n) staged =
          ({ db with staging := setProcessedById staged.id db.staging }, n)) ∧
      (db.articles.any (fun a => a.source_url == staged.source_url) = false →
        promoteStep fails (db, n) staged =
          ({ db with staging := setProcessedById staged.id db.staging,
                     articles := db.articles ++ [mkArticle staged] }, n + 1))) ∧
    (fails staged.id = true →
      (staged :: cs).foldl (promoteStep fails) (db, n) =
        cs.foldl (promoteStep fails) (db, n)) :=
  ⟨fun h1 => ⟨fun h2 => promoteStep_skip fails db n staged h1 h2,
              fun h2 => promoteStep_create fails db n staged h1 h2⟩,
   fun h1 => by rw [List.foldl_cons, promoteStep_fault fails db n staged h1]⟩

/-- Witness for C3 at a concrete state: the create branch on a fresh URL,
and a faulting candidate being skipped without aborting the loop. -/
theorem promotion_candidate_isolation_witness :
    promoteStep (fun _ => false) (promoteFixtureDB, 0) stagedFixture =
      ({ promoteFixtureDB with
          staging := setProcessedById stagedFixture.id promoteFixtureDB.staging,
          articles := promoteFixtureDB.articles ++ [mkArticle stagedFixture] }, 1) ∧
    ([stagedFixture].foldl (promoteStep (fun i => i == 1)) (promoteFixtureDB, 0) =
      ([] : List StagingRecord).foldl (promoteStep (fun i => i == 1)) (promoteFixtureDB, 0)) :=
  ⟨((promotion_candidate_isolation (fun _ => false) promoteFixtureDB 0 stagedFixture []).1
      rfl).2 (by decide),
   (promotion_candidate_isolation (fun i => i == 1) promoteFixtureDB 0 stagedFixture []).2
      (by decide)⟩

/-- C10: the `success_count` a promotion run reports equals exactly the
number of production rows the run created — skipped candidates (existing
URL) and faulting candidates contribute nothing. -/
theorem promotion_count_matches_created (fails : Nat → Bool) (db : DB) :
    ((process_articles_handle fails db).1).articles.length =
      db.articles.length + (process_articles_handle fails db).2 := by
  have h := promoteFold_articles_len fails (promotionCandidates db) db 0
  unfold process_articles_handle
  unfold promotionCandidates at h
  simpa using h

/-- C5: any sequence of promotion runs (with arbitrary per-candidate
faults) preserves uniqueness of `source_url` over the production table,
because each creation is guarded by the existence check against the
current table inside the candidate's atomic unit. -/
theorem promotion_preserves_url_uniqueness (runs : List (Nat → Bool)) (db : DB)
    (h : UniqueUrls db) :
    UniqueUrls (runs.foldl (fun d f => (process_articles_handle f d).1) db) := by
  induction runs generalizing db with
  | nil => simpa using h
  | cons f runs ih =>
    rw [List.foldl_cons]
    apply ih
    unfold process_articles_handle
    exact promoteFold_unique_urls f (promotionCandidates db) db 0 h

/-- Witness for C5 at a concrete state with a unique-URL production table
and one promotion run. -/
theorem promotion_preserves_url_uniqueness_witness :
    UniqueUrls ([fun _ => false].foldl
      (fun d f => (process_articles_handle f d).1) promoteFixtureDB) :=
  promotion_preserves_url_uniqueness [fun _ => false] promoteFixtureDB (by decide)

/-! ## Lemmas about the staging upsert -/

theorem get_or_create_found (db : DB) (it : FetchedItem) (r : StagingRecord)
    (h : db.staging.find? (fun s => s.source_url == it.source_url) = some r) :
    get_or_create db it = (db, r, false) := by
  unfold get_or_create
  rw [h]

theorem get_or_create_not_found (db : DB) (it : FetchedItem)
    (h : db.staging.find? (fun s => s.source_url == it.source_url) = none) :
    get_or_create db it =
      ({ db with staging := db.staging ++ [newStagingRecord db.next_id it],
                 next_id := db.next_id + 1 },
       newStagingRecord db.next_id it, true) := by
  unfold get_or_create
  rw [h]

theorem ingestStep_found (db : DB) (n : Nat) (it : FetchedItem) (r : StagingRecord)
    (h : db.staging.find? (fun s => s.source_url == it.source_url) = some r) :
    ingestStep (db, n) it = (db, n) := by
  unfold ingestStep
  rw [get_or_create_found db it r h]
  simp

theorem ingestStep_not_found (db : DB) (n : Nat) (it : FetchedItem)
    (h : db.staging.find? (fun s => s.source_url == it.source_url) = none) :
    ingestStep (db, n) it =
      ({ db with staging := db.staging ++ [newStagingRecord db.next_id it],
                 next_id := db.next_id + 1 }, n + 1) := by
  unfold ingestStep
  rw [get_or_create_not_found db it h]
  simp

theorem get_or_create_preserves_presence (db : DB) (it it2 : FetchedItem)
    (h : UrlPresent db it2) : UrlPresent (get_or_create db it).1 it2 := by
  rcases hf : db.staging.find? (fun s => s.source_url == it.source_url) with _ | r
  · rw [get_or_create_not_found db it hf]
    rcases h with ⟨r2, hr2, hu⟩
    exact ⟨r2, List.mem_append_left _ hr2, hu⟩
  · rw [get_or_create_found db it r hf]
    exact h

theorem get_or_create_establishes_presence (db : DB) (it : FetchedItem) :
    UrlPresent (get_or_create db it).1 it := by
  rcases hf : db.staging.find? (fun s => s.source_url == it.source_url) with _ | r
  · rw [get_or_create_not_found db it hf]
    exact ⟨newStagingRecord db.next_id it,
      List.mem_append_right _ (List.mem_singleton_self _), rfl⟩
  · rw [get_or_create_found db it r hf]
    have hp := List.find?_some hf
    exact ⟨r, List.mem_of_find?_eq_some hf, by simpa using hp⟩

theorem ingest_fold_presence (items : List FetchedItem) :
    ∀ (db : DB) (n : Nat) (it : FetchedItem), UrlPresent db it ∨ it ∈ items →
      UrlPresent ((items.foldl ingestStep (db, n)).1) it := by
  induction items with
  | nil =>
    intro db n it h
    rcases h with h | h
    · simpa using h
    · simp at h
  | cons j items ih =>
    intro db n it h
    rw [List.foldl_cons]
    have hfst : (ingestStep (db, n) j).1 = (get_or_create db j).1 := rfl
    rcases hstep : ingestStep (db, n) j with ⟨db1, n1⟩
    have hdb1 : db1 = (get_or_create db j).1 := by rw [← hfst, hstep]
    apply ih db1 n1
    rcases h with h | h
    · exact Or.inl (hdb1 ▸ get_or_create_preserves_presence db j it h)
    · rcases List.mem_cons.mp h with rfl | h
      · exact Or.inl (hdb1 ▸ get_or_create_establishes_presence db it)
      · exact Or.inr h

theorem ingest_fold_no_op (items : List FetchedItem) :
    ∀ (db : DB) (n : Nat), (∀ it ∈ items, UrlPresent db it) →
      items.foldl ingestStep (db, n) = (db, n) := by
  induction items with
  | nil => intro db n _; rfl
  | cons j items ih =>
    intro db n h
    rw [List.foldl_cons]
    have hpres := h j (List.mem_cons_self _ _)
    have hne : db.staging.find? (fun s => s.source_url == j.source_url) ≠ none := by
      intro hnone
      have hall := List.find?_eq_none.mp hnone
      rcases hpres with ⟨r, hr, hu⟩
      exact hall r hr (by simp [hu])
    rcases hf : db.staging.find? (fun s => s.source_url == j.source_url) with _ | r
    · exact absurd hf hne
    · rw [ingestStep_found db n j r hf]
      exact ih db n (fun it hit => h it (List.mem_cons_of_mem _ hit))

theorem get_or_create_preserves_nodup (db : DB) (it : FetchedItem)
    (h : (db.staging.map (fun r => r.source_url)).Nodup) :
    (((get_or_create db it).1).staging.map (fun r => r.source_url)).Nodup := by
  rcases hf : db.staging.find? (fun s => s.source_url == it.source_url) with _ | r
  · rw [get_or_create_not_found db it hf]
    simp only [List.map_append, List.map_cons, List.map_nil]
    rw [List.nodup_append]
    refine ⟨h, List.nodup_singleton _, ?_⟩
    intro u hu hu2
    simp only [List.mem_singleton] at hu2
    subst hu2
    rcases List.mem_map.mp hu with ⟨r, hr, hru⟩
    have := List.find?_eq_none.mp hf r hr
    simp only [newStagingRecord] at hru
    exact this (by simpa using hru)
  · rw [get_or_create_found db it r hf]
    exact h

theorem ingest_fold_nodup (items : List FetchedItem) :
    ∀ (db : DB) (n : Nat), (db.staging.map (fun r => r.source_url)).Nodup →
      (((items.foldl ingestStep (db, n)).1).staging.map (fun r => r.source_url)).Nodup := by
  induction items with
  | nil => intro db n h; simpa using h
  | cons j items ih =>
    intro db n h
    rw [List.foldl_cons]
    have hfst : (ingestStep (db, n) j).1 = (get_or_create db j).1 := rfl
    rcases hstep : ingestStep (db, n) j with ⟨db1, n1⟩
    have hdb1 : db1 = (get_or_create db j).1 := by rw [← hfst, hstep]
    exact ih db1 n1 (hdb1 ▸ get_or_create_preserves_nodup db j h)

theorem filter_url_length_one (l : List StagingRecord) (u : String)
    (hn : (l.map (fun r => r.source_url)).Nodup) (hp : ∃ r ∈ l, r.source_url = u) :
    (l.filter (fun s => s.source_url == u)).length = 1 := by
  induction l with
  | nil => simp at hp
  | cons r l ih =>
    simp only [List.map_cons, List.nodup_cons] at hn
    by_cases hru : r.source_url = u
    · have hnone : ∀ s ∈ l, ¬(s.source_url == u) := by
        intro s hs hbeq
        exact hn.1 (List.mem_map.mpr ⟨s, hs, (beq_iff_eq.mp hbeq).trans hru.symm⟩)
      rw [List.filter_cons_of_pos (by simpa using hru)]
      rw [List.filter_eq_nil_iff.mpr hnone]
      rfl
    · rw [List.filter_cons_of_neg (by simpa using hru)]
      apply ih hn.2
      rcases hp with ⟨s, hs, hsu⟩
      rcases List.mem_cons.mp hs with rfl | hs
      · exact absurd hsu hru
      · exact ⟨s, hs, hsu⟩

/-! ## Settling the ingestion claim -/

/-- C6: the staging upsert is idempotent.  A `get_or_create` hit returns the
existing row entirely unchanged with `created=false`; re-running
`ingest_articles` on the same items changes nothing and reports a saved
count of zero; and (when staging URLs start unique) the first run leaves
exactly one staging row per ingested `source_url`. -/
theorem ingest_upsert_idempotent (db : DB) (items : List FetchedItem) :
    (∀ it r, db.staging.find? (fun s => s.source_url == it.source_url) = some r →
      get_or_create db it = (db, r, false)) ∧
    ingest_articles items (ingest_articles items db).1 =
      ((ingest_articles items db).1, 0) ∧
    ((db.staging.map (fun r => r.source_url)).Nodup →
      ∀ it ∈ items,
        (((ingest_articles items db).1).staging.filter
          (fun s => s.source_url == it.source_url)).length = 1) := by
  refine ⟨fun it r h => get_or_create_found db it r h, ?_, ?_⟩
  · unfold ingest_articles
    exact ingest_fold_no_op items _ 0
      (fun it hit => ingest_fold_presence items db 0 it (Or.inr hit))
  · intro hn it hit
    exact filter_url_length_one _ _
      (by unfold ingest_articles; exact ingest_fold_nodup items db 0 hn)
      (by unfold ingest_articles; exact ingest_fold_presence items db 0 it (Or.inr hit))

/-- Witness for C6 at a concrete item and an empty store: the second run is
a no-op and exactly one row carries the item's URL. -/
theorem ingest_upsert_idempotent_witness :
    ingest_articles [itemFixture] (ingest_articles [itemFixture] emptyDB).1 =
      ((ingest_articles [itemFixture] emptyDB).1, 0) ∧
    (((ingest_articles [itemFixture] emptyDB).1).staging.filter
      (fun s => s.source_url == itemFixture.source_url)).length = 1 :=
  ⟨(ingest_upsert_idempotent emptyDB [itemFixture]).2.1,
   (ingest_upsert_idempotent emptyDB [itemFixture]).2.2 (by decide) itemFixture
     (by decide)⟩

/-! ## Lemmas about the processed-implies-summary invariant -/

theorem applyOps_cons (op : AdminOp) (ops : List AdminOp) (db : DB) :
    applyOps (op :: ops) db = applyOps ops (applyOp op db) := rfl

theorem parseSummaryLoop_cons (l : String) (ls acc : List String) :
    parseSummaryLoop (l :: ls) acc =
      if "try".toList.isPrefixOf (pyLower (pyStrip summaryLineStrip l)).toList
          || strContains (pyLower (pyStrip summaryLineStrip l)) "prompt"
          || decide (3 ≤ acc.length) then
        (acc.reverse, some (pyStrip summaryLineStrip l))
      else if pyStrip summaryLineStrip l ≠ "" then
        parseSummaryLoop ls (pyStrip summaryLineStrip l :: acc)
      else parseSummaryLoop ls acc := rfl

theorem parseSummaryLoop_mem_ne_empty (ls : List String) :
    ∀ acc, (∀ a ∈ acc, a ≠ "") → ∀ x ∈ (parseSummaryLoop ls acc).1, x ≠ "" := by
  induction ls with
  | nil =>
    intro acc hacc x hx
    unfold parseSummaryLoop at hx
    exact hacc x (List.mem_reverse.mp hx)
  | cons l ls ih =>
    intro acc hacc x hx
    rw [parseSummaryLoop_cons] at hx
    by_cases hbrk : ("try".toList.isPrefixOf (pyLower (pyStrip summaryLineStrip l)).toList
        || strContains (pyLower (pyStrip summaryLineStrip l)) "prompt"
        || decide (3 ≤ acc.length)) = true
    · rw [if_pos hbrk] at hx
      exact hacc x (List.mem_reverse.mp hx)
    · rw [if_neg (by simpa using hbrk)] at hx
      by_cases hl0 : pyStrip summaryLineStrip l ≠ ""
      · rw [if_pos hl0] at hx
        refine ih _ ?_ x hx
        intro a ha
        rcases List.mem_cons.mp ha with rfl | ha
        · exact hl0
        · exact hacc a ha
      · rw [if_neg hl0] at hx
        exact ih acc hacc x hx

theorem pyJoin_ne_empty (sep x : String) (xs : List String) (hx : x ≠ "") :
    pyJoin sep (x :: xs) ≠ "" := by
  cases xs with
  | nil => simpa [pyJoin] using hx
  | cons y ys =>
    simp only [pyJoin]
    intro hcontr
    apply hx
    have hlen := congrArg String.length hcontr
    simp only [String.length_append] at hlen
    have hx0 : x.length = 0 := by
      have : ("" : String).length = 0 := rfl
      omega
    cases x with
    | mk data =>
      have hd : data.length = 0 := hx0
      simp only [List.length_eq_zero] at hd
      simp [hd]

theorem summarize_articles_row (resp : Except String String) (r : StagingRecord) :
    (summarize_articles resp r).1 = r ∨
    ((summarize_articles resp r).1.processed = r.processed ∧
      (summarize_articles resp r).1.summary ≠ "") := by
  unfold summarize_articles
  by_cases h1 : (pySplitWs (pyStripWs r.raw_content)).length < 100
  · simp [h1]
  · rcases resp with e | t
    · simp [h1]
    · simp only [h1, if_false]
      by_cases h2 : (parseSummaryLoop (pySplitLines (pyStripWs t)) []).1.isEmpty
      · simp [h2]
      · simp only [h2, Bool.false_eq_true, if_false]
        rcases hl : (parseSummaryLoop (pySplitLines (pyStripWs t)) []).1 with _ | ⟨x, xs⟩
        · exact absurd hl (by simpa [List.isEmpty_iff] using h2)
        · have hx : x ≠ "" :=
            parseSummaryLoop_mem_ne_empty _ [] (by simp) x
              (by rw [hl]; exact List.mem_cons_self _ _)
          refine Or.inr ⟨by trivial, ?_⟩
          simpa [List.take_succ_cons] using pyJoin_ne_empty "\n" x (xs.take 2) hx

theorem get_or_create_preserves_inv (db : DB) (it : FetchedItem)
    (h : ProcessedSummaryInv db) : ProcessedSummaryInv (get_or_create db it).1 := by
  rcases hf : db.staging.find? (fun s => s.source_url == it.source_url) with _ | r
  · rw [get_or_create_not_found db it hf]
    intro r' hr'
    rcases List.mem_append.mp hr' with hr' | hr'
    · exact h r' hr'
    · rcases List.mem_singleton.mp hr' with rfl
      intro hp
      simp [newStagingRecord] at hp
  · rw [get_or_create_found db it r hf]
    exact h

theorem ingest_fold_preserves_inv (items : List FetchedItem) :
    ∀ (db : DB) (n : Nat), ProcessedSummaryInv db →
      ProcessedSummaryInv ((items.foldl ingestStep (db, n)).1) := by
  induction items with
  | nil => intro db n h; simpa using h
  | cons j items ih =>
    intro db n h
    rw [List.foldl_cons]
    have hfst : (ingestStep (db, n) j).1 = (get_or_create db j).1 := rfl
    rcases hstep : ingestStep (db, n) j with ⟨db1, n1⟩
    have hdb1 : db1 = (get_or_create db j).1 := by rw [← hfst, hstep]
    exact ih db1 n1 (hdb1 ▸ get_or_create_preserves_inv db j h)

theorem run_ai_summarization_preserves_inv (resp : Nat → Except String String) (db : DB)
    (h : ProcessedSummaryInv db) : ProcessedSummaryInv (run_ai_summarization resp db) := by
  intro r' hr'
  unfold run_ai_summarization at hr'
  rcases List.mem_map.mp hr' with ⟨r, hr, rfl⟩
  by_cases hc : (r.approved && r.summary == "") = true
  · simp only [hc, if_true]
    rcases summarize_articles_row (resp r.id) r with heq | ⟨hproc, hsum⟩
    · rw [heq]; exact h r hr
    · intro _; exact hsum
  · simp only [hc, if_false]
    exact h r hr

theorem mark_processed_preserves_inv (ids : List Nat) (db : DB)
    (h : ProcessedSummaryInv db) : ProcessedSummaryInv (mark_processed ids db).1 := by
  intro r' hr'
  unfold mark_processed at hr'
  rcases List.mem_map.mp hr' with ⟨r, hr, rfl⟩
  unfold markProcessedRow
  by_cases hc : (ids.contains r.id && !(r.summary == "")) = true
  · simp only [hc, if_true]
    intro _
    have := (Bool.and_eq_true _ _).mp hc
    simpa using this.2
  · simp only [hc, if_false]
    exact h r hr

theorem applyOp_preserves_inv (op : AdminOp) (db : DB) (hsafe : SafeOp op)
    (h : ProcessedSummaryInv db) : ProcessedSummaryInv (applyOp op db) := by
  cases op with
  | ingest items =>
    unfold applyOp ingest_articles
    exact ingest_fold_preserves_inv items db 0 h
  | summarize resp => exact run_ai_summarization_preserves_inv resp db h
  | approve ids =>
    intro r' hr'
    unfold applyOp mark_approved at hr'
    rcases List.mem_map.mp hr' with ⟨r, hr, rfl⟩
    by_cases hc : r.id ∈ ids <;> simpa [hc] using h r hr
  | unapprove ids =>
    intro r' hr'
    unfold applyOp mark_unapproved at hr'
    rcases List.mem_map.mp hr' with ⟨r, hr, rfl⟩
    by_cases hc : r.id ∈ ids <;> simpa [hc] using h r hr
  | markProcessed ids => exact mark_processed_preserves_inv ids db h
  | markUnprocessed ids =>
    intro r' hr'
    unfold applyOp mark_unprocessed at hr'
    rcases List.mem_map.mp hr' with ⟨r, hr, rfl⟩
    by_cases hc : r.id ∈ ids
    · simp [hc]
    · simpa [hc] using h r hr
  | clearSummary ids => exact hsafe.elim
  | promote fails => exact hsafe.elim

theorem applyOps_preserves_inv (ops : List AdminOp) :
    ∀ db : DB, (∀ op ∈ ops, SafeOp op) → ProcessedSummaryInv db →
      ProcessedSummaryInv (applyOps ops db) := by
  induction ops with
  | nil => intro db _ h; simpa [applyOps] using h
  | cons op ops ih =>
    intro db hsafe h
    rw [applyOps_cons]
    exact ih _ (fun o ho => hsafe o (List.mem_cons_of_mem _ ho))
      (applyOp_preserves_inv op db (hsafe op (List.mem_cons_self _ _)) h)

/-! ## Settling the invariant and mark-processed claims -/

/-- C2, counterexample: the invariant "processed implies non-empty summary"
does *not* hold at every observable point.  Starting from a state
satisfying it, `mark_processed` legitimately processes a summarized row,
and `clear_summary` then wipes the summary while leaving `processed=True`. -/
theorem processed_summary_inv_violated :
    ProcessedSummaryInv invariantDB ∧
    ¬ ProcessedSummaryInv
        (applyOps [AdminOp.markProcessed [1], AdminOp.clearSummary [1]] invariantDB) := by
  constructor
  · decide
  · decide

/-- C2 (amended): the invariant is preserved by every exposed operation
except `clear_summary` (which empties the summary of a processed row) and
the promotion command (which sets `processed=True` without requiring a
summary): any sequence of ingestion upserts, summarizations,
approve/unapprove, `mark_processed` and `mark_unprocessed` actions keeps
it. -/
theorem processed_summary_inv_preserved (ops : List AdminOp) (db : DB)
    (hsafe : ∀ op ∈ ops, SafeOp op) (h : ProcessedSummaryInv db) :
    ProcessedSummaryInv (applyOps ops db) :=
  applyOps_preserves_inv ops db hsafe h

/-- Witness for the amended C2 theorem on a concrete safe sequence. -/
theorem processed_summary_inv_preserved_witness :
    ProcessedSummaryInv (applyOps [AdminOp.approve [1], AdminOp.markProcessed [1]] invariantDB) :=
  processed_summary_inv_preserved [AdminOp.approve [1], AdminOp.markProcessed [1]] invariantDB
    (by
      intro op hop
      rcases List.mem_cons.mp hop with rfl | hop
      · exact trivial
      · rcases List.mem_singleton.mp hop with rfl
        exact trivial)
    (by decide)

/-- C9, counterexample: `mark_processed` does not force `processed=False`
on an empty-summary record — it skips the record, leaving the flag as it
was.  On a record that is already `processed=True` with an empty summary
(reachable via `clear_summary`), the flag is still `True` after the
attempt, where the claim demands `False`. -/
theorem mark_processed_keeps_stale_flag :
    processedNoSummary.summary = "" ∧
    ((mark_processed [4] processedNoSummaryDB).1.staging.map
      (fun r => r.processed)) = [true] := by
  constructor
  · rfl
  · decide

/-- C9 (amended): `mark_processed` never *sets* `processed` on an
empty-summary record and leaves such a record entirely unchanged (in
particular the flag stays `false` when it was `false`), counts it in
`failed_count`, while selected records with a non-empty summary are marked
processed; separately, `save_model` force-resets an optimistically set
`processed` flag to `false` when the summary is empty. -/
theorem mark_processed_requires_summary (db : DB) (ids : List Nat) (r : StagingRecord) :
    (mark_processed ids db).1.staging = db.staging.map (markProcessedRow ids) ∧
    (r.summary = "" → markProcessedRow ids r = r) ∧
    (ids.contains r.id = true → r.summary ≠ "" →
      (markProcessedRow ids r).processed = true) ∧
    (mark_processed ids db).2.2 =
      (db.staging.filter (fun s => ids.contains s.id && s.summary == "")).length ∧
    (r.processed = true → r.summary = "" →
      save_model r true = { r with processed := false }) := by
  refine ⟨rfl, ?_, ?_, rfl, ?_⟩
  · intro hs
    unfold markProcessedRow
    simp [hs]
  · intro hc hs
    unfold markProcessedRow
    have hm : r.id ∈ ids := by simpa [List.contains, List.elem_iff] using hc
    simp [hm, hs]
  · intro hp hs
    unfold save_model
    simp [hp, hs]

/-- Witness for the amended C9 theorem at concrete records: the skipped
empty-summary row, the processed summarized row, and the `save_model`
reset. -/
theorem mark_processed_requires_summary_witness :
    markProcessedRow [4] processedNoSummary = processedNoSummary ∧
    (markProcessedRow [1] stagedFixture).processed = true ∧
    save_model processedNoSummary true = { processedNoSummary with processed := false } :=
  ⟨(mark_processed_requires_summary processedNoSummaryDB [4] processedNoSummary).2.1 rfl,
   (mark_processed_requires_summary invariantDB [1] stagedFixture).2.2.1 (by decide)
     (by decide),
   (mark_processed_requires_summary processedNoSummaryDB [4] processedNoSummary).2.2.2.2
     rfl rfl⟩

/-! ## Lemmas about fetcher fallback behaviour -/

theorem devto_fold_all_errors (env : DevtoEnv) (tags : List String) :
    ∀ acc : List FetchedItem,
      (∀ t ∈ tags, ∃ e, env.listReq t = Except.error e) →
      tags.foldl (fun acc tag => acc ++ devtoFetchTag env tag) acc = acc := by
  induction tags with
  | nil => intro acc _; rfl
  | cons t tags ih =>
    intro acc h
    rw [List.foldl_cons]
    rcases h t (List.mem_cons_self _ _) with ⟨e, he⟩
    rw [show devtoFetchTag env t = [] from by unfold devtoFetchTag; rw [he]]
    rw [List.append_nil]
    exact ih acc (fun u hu => h u (List.mem_cons_of_mem _ hu))

theorem enhanced_mock_take_ne_nil (today : Int) (dateStr : String) (mp : Nat)
    (h : 1 ≤ mp) : (enhanced_mock_entries today dateStr).take mp ≠ [] := by
  cases mp with
  | zero => omega
  | succ k => simp [enhanced_mock_entries, List.take_succ_cons]

theorem simple_mock_take_ne_nil (today : Int) (dateStr : String) (mp : Nat)
    (h : 1 ≤ mp) : (simple_mock_entries today dateStr).take mp ≠ [] := by
  cases mp with
  | zero => omega
  | succ k => simp [simple_mock_entries, List.take_succ_cons]

theorem serviceLoop_all_errors (outcomes : List (Except String (List Paper))) :
    ∀ db, (∀ o ∈ outcomes, ∃ e, o = Except.error e) →
      serviceLoop db outcomes = (db, 0) := by
  induction outcomes with
  | nil => intro db _; rfl
  | cons o rest ih =>
    intro db h
    rcases h o (List.mem_cons_self _ _) with ⟨e, rfl⟩
    unfold serviceLoop
    exact ih db (fun u hu => h u (List.mem_cons_of_mem _ hu))

theorem fetch_and_store_research_all_errors (outcomes : List (Except String (List Paper)))
    (fallback : List Paper) (db : List (Option String))
    (hout : ∀ o ∈ outcomes, ∃ e, o = Except.error e) :
    fetch_and_store_research outcomes fallback db = store_research_data db fallback := by
  unfold fetch_and_store_research
  by_cases he : outcomes.isEmpty
  · simp [he]
  · simp only [he, Bool.false_eq_true, if_false]
    rw [serviceLoop_all_errors outcomes db hout]
    simp

/-! ## Settling the fetcher fallback claim -/

/-- C4, counterexample: `DevtoIngestor.fetch_articles` has no synthetic
fallback.  On a network oracle where every request raises, it returns the
empty list — not a "fixed, non-empty set of synthetic fallback records". -/
theorem devto_total_failure_returns_empty :
    devto_fetch_articles failingDevtoEnv ["flutter", "ai", "tools", "programming"] = [] := rfl

/-- C4 (amended): no fetcher propagates an exception (each is a total
function of its failure oracle), and on total failure the *research*
fetchers return their non-empty mock data (for `max_papers ≥ 1`) and the
ingestion service stores its fallback mock data — but
`DevtoIngestor.fetch_articles` returns the empty list when every tag
request raises. -/
theorem fetch_failure_fallback (env : DevtoEnv) (tags : List String)
    (hfail : ∀ t ∈ tags, ∃ e, env.listReq t = Except.error e)
    (today : Int) (dateStr : String) (mp : Nat) (hmp : 1 ≤ mp) (msg : String)
    (outcomes : List (Except String (List Paper))) (fallback : List Paper)
    (db : List (Option String))
    (hout : ∀ o ∈ outcomes, ∃ e, o = Except.error e) :
    devto_fetch_articles env tags = [] ∧
    enhanced_fetch today dateStr .unavailable mp ≠ [] ∧
    enhanced_fetch today dateStr (.raised msg) mp ≠ [] ∧
    enhanced_fetch today dateStr (.results []) mp ≠ [] ∧
    simple_fetch today dateStr mp ≠ [] ∧
    fetch_and_store_research outcomes fallback db = store_research_data db fallback := by
  refine ⟨devto_fold_all_errors env tags [] hfail,
          enhanced_mock_take_ne_nil today dateStr mp hmp,
          enhanced_mock_take_ne_nil today dateStr mp hmp,
          enhanced_mock_take_ne_nil today dateStr mp hmp,
          simple_mock_take_ne_nil today dateStr mp hmp,
          fetch_and_store_research_all_errors outcomes fallback db hout⟩

/-- Witness for the amended C4 theorem on concrete failing oracles. -/
theorem fetch_failure_fallback_witness :
    devto_fetch_articles failingDevtoEnv ["ai"] = [] ∧
    enhanced_fetch 0 "2025-01-01" (.raised "timeout") 20 ≠ [] ∧
    simple_fetch 0 "2025-01-01" 20 ≠ [] ∧
    fetch_and_store_research [Except.error "net down"]
        (fallback_mock_entries 0 "2025-01-01") [] =
      store_research_data [] (fallback_mock_entries 0 "2025-01-01") := by
  have h := fetch_failure_fallback failingDevtoEnv ["ai"]
    (by intro t ht; exact ⟨"connection refused", rfl⟩)
    0 "2025-01-01" 20 (by decide) "timeout"
    [Except.error "net down"] (fallback_mock_entries 0 "2025-01-01") []
    (by intro o ho; rcases List.mem_singleton.mp ho with rfl; exact ⟨"net down", rfl⟩)
  exact ⟨h.1, h.2.2.1, h.2.2.2.2.1, h.2.2.2.2.2⟩
